import Mathlib

/-!
Verification of the psycluster client core: the pipeline step catalog and
progress messages, the result data model, the dispatcher mutual-exclusion
flag, the subscription manager, the run-rename validation in the Results
page, and the file-preview column/delimiter logic.

Source embedding conventions:
- TypeScript string-literal unions become inductive types.
- TypeScript interfaces become structures; UUID fields become `Nat`;
  `number` fields become `Nat` (timestamps, counts, indices) or `Int`
  (similarity scores); object back-references of the relational model are
  represented by their id fields.
- `Record<K, V>` (total map) becomes a function `K → V`, and the literal
  key order of a record constant is additionally kept as an association
  list where a claim is about that order.
- Components whose implementation is not part of the client sources
  (broker, progress tracker, subscription manager, query handlers) are
  modelled from the specification; each such definition says so in its
  doc comment.
-/

namespace Psycluster

set_option maxRecDepth 8000

/-- The `ClusteringStep` string union of models.ts, one constructor per
literal member, in source order. -/
inductive ClusteringStep where
  | start
  | process_input_file
  | load_model
  | embed_responses
  | detect_outliers
  | auto_cluster_count
  | cluster
  | merge
  | save
deriving DecidableEq, Fintype

/-- The status union `"todo" | "start" | "complete" | "error"` used by the
progress message types of models.ts. -/
inductive StepStatus where
  | todo
  | start
  | complete
  | error
deriving DecidableEq

instance : BEq ClusteringStep := instBEqOfDecidableEq
instance : BEq StepStatus := instBEqOfDecidableEq

/-- The `ClusteringProgressMessage` interface of models.ts: a step, a
status, and a timestamp. -/
structure ClusteringProgressMessage where
  step : ClusteringStep
  status : StepStatus
  timestamp : Nat
deriving DecidableEq

/-- The pipeline step order: the member order of the `ClusteringStep`
union in models.ts (which the spec fixes as the execution order). -/
def clusteringStepOrder : List ClusteringStep :=
  [.start, .process_input_file, .load_model, .embed_responses,
   .detect_outliers, .auto_cluster_count, .cluster, .merge, .save]

/-- The `progressionMessages` record constant of models.ts, kept as an
association list in the literal's key order. -/
def progressionMessagesTable : List (ClusteringStep × String) :=
  [(.start, "Starting clustering process"),
   (.process_input_file, "Reading input file"),
   (.load_model, "Loading language model"),
   (.embed_responses, "Embedding responses"),
   (.detect_outliers, "Detecting outliers"),
   (.auto_cluster_count, "Determining cluster count"),
   (.cluster, "Clustering"),
   (.merge, "Merging clusters"),
   (.save, "Saving results")]

/-- The `progressionMessages` record of models.ts as the total map it
denotes (a `Record<ClusteringStep, string>`). -/
def progressionMessages : ClusteringStep → String
  | .start => "Starting clustering process"
  | .process_input_file => "Reading input file"
  | .load_model => "Loading language model"
  | .embed_responses => "Embedding responses"
  | .detect_outliers => "Detecting outliers"
  | .auto_cluster_count => "Determining cluster count"
  | .cluster => "Clustering"
  | .merge => "Merging clusters"
  | .save => "Saving results"

/-- Position of a step in the fixed pipeline order. -/
def stepIndex : ClusteringStep → Nat
  | .start => 0
  | .process_input_file => 1
  | .load_model => 2
  | .embed_responses => 3
  | .detect_outliers => 4
  | .auto_cluster_count => 5
  | .cluster => 6
  | .merge => 7
  | .save => 8

/-- The step that directly precedes a given step in the pipeline order,
`none` for the first step. -/
def prevStep : ClusteringStep → Option ClusteringStep
  | .start => none
  | .process_input_file => some .start
  | .load_model => some .process_input_file
  | .embed_responses => some .load_model
  | .detect_outliers => some .embed_responses
  | .auto_cluster_count => some .detect_outliers
  | .cluster => some .auto_cluster_count
  | .merge => some .cluster
  | .save => some .merge

/-- The `FileSettings` interface of models.ts. -/
structure FileSettings where
  delimiter : String
  has_header : Bool
  selected_columns : List Nat
deriving DecidableEq

/-! ### FilePreview page (FilePreview.tsx) -/

/-- JavaScript `a || b` on a nullable string `a`: both `null` and the
empty string are falsy, so they select `b`. -/
def jsStringOr (a : Option String) (b : String) : String :=
  match a with
  | none => b
  | some s => if s = "" then b else s

/-- The FilePreview component state relevant to the file-settings flow:
`delimiter` (`string | null`), `hasHeader`, `selectedColumns`. -/
structure FilePreviewState where
  delimiter : Option String
  hasHeader : Bool
  selectedColumns : List Nat
deriving DecidableEq

/-- The Continue button handler of FilePreview.tsx: it calls
`window.file.setSettings` with delimiter `delimiter || ","`, the header
flag, and the selected columns. -/
def continueFileSettings (st : FilePreviewState) : FileSettings :=
  { delimiter := jsStringOr st.delimiter ","
    has_header := st.hasHeader
    selected_columns := st.selectedColumns }

/-- `const headers = hasHeader ? previewData[0] : []` of FilePreview.tsx
(with `previewData[0]` of an empty array read as the empty list). -/
def headersOf (hasHeader : Bool) (previewData : List (List String)) :
    List String :=
  if hasHeader then previewData.headD [] else []

/-- The Toggle-all button handler of FilePreview.tsx:
`selectedColumns.length === 0 ? [...Array(headers.length).keys()] : []`. -/
def toggleAll (headers : List String) (selectedColumns : List Nat) :
    List Nat :=
  if selectedColumns.length = 0 then List.range headers.length else []

/-- `toggleColumn` of FilePreview.tsx: remove the index if present,
otherwise append it. -/
def toggleColumn (selectedColumns : List Nat) (index : Nat) : List Nat :=
  if selectedColumns.contains index then
    selectedColumns.filter (fun col => col != index)
  else
    selectedColumns ++ [index]

/-! ### Results page rename flow (appended to models.ts) -/

/-- `validateRunName` of the Results page: a falsy (empty) name is
invalid, a name longer than 255 characters is invalid, anything else is
valid. -/
def validateRunName (newName : String) : Bool :=
  if newName = "" then false
  else if newName.length > 255 then false
  else true

/-- The Results component state relevant to renaming: the stored display
name, the text-input contents, and the validity flag kept in sync by the
input's onChange handler. -/
structure ResultsNameState where
  runName : String
  runNameInput : String
  isValidRunName : Bool
deriving DecidableEq

/-- The rename input's onChange handler: stores the new input value and
recomputes `isValidRunName` via `validateRunName`. -/
def onNameInputChange (st : ResultsNameState) (v : String) :
    ResultsNameState :=
  { st with runNameInput := v, isValidRunName := validateRunName v }

/-- `updateRunName` of the Results page: returns without effect when
`isValidRunName` is false; otherwise issues the database update and
stores the new name. The boolean result records whether the update was
applied. -/
def updateRunName (st : ResultsNameState) (newName : String) :
    ResultsNameState × Bool :=
  if st.isValidRunName then
    ({ st with runName := newName }, true)
  else
    (st, false)

/-- The complete UI flow for renaming to `s`: type `s` into the input
(onChange fires), then confirm with Enter or the save button, both of
which call `updateRunName runNameInput`. -/
def applyRenameFlow (st : ResultsNameState) (s : String) :
    ResultsNameState × Bool :=
  updateRunName (onNameInputChange st s) s

/-! ### Subscription manager -/

/-- Modelled from the spec: the client-side subscription manager tracks,
per broadcast channel, the set of active listeners; its implementation
(the preload bridge behind `onClusteringUpdate` and the other
`onReceive...` functions, which return cleanup callbacks) is not among
the client sources. Listeners are identified by the pair (channel name,
listener id). -/
structure SubscriptionState where
  listeners : List (String × Nat)
deriving DecidableEq

/-- Modelled from the spec: `subscribe(channel, listener)` registers the
listener on the channel and returns a cancellation handle for exactly
that registration. -/
def subscribe (st : SubscriptionState) (ch : String) (lid : Nat) :
    SubscriptionState :=
  ⟨(ch, lid) :: st.listeners⟩

/-- Modelled from the spec: invoking the cancellation handle removes the
(channel, listener) registration from the manager. -/
def cancelHandle (st : SubscriptionState) (ch : String) (lid : Nat) :
    SubscriptionState :=
  ⟨st.listeners.filter (fun p => !(p.1 == ch && p.2 == lid))⟩

/-- Modelled from the spec: a broadcast on a channel is fanned out to
every listener currently registered on that channel, each exactly
once. -/
def deliveries (st : SubscriptionState) (ch : String) : List Nat :=
  (st.listeners.filter (fun p => p.1 == ch)).map Prod.snd

/-! ### Relational result data model (models.ts interfaces) -/

/-- The `Response` interface of models.ts; the `cluster` and
`outlier_statistic` back-reference objects are represented by the
`cluster_id` field and by the `OutlierStatistic.response_id` back edge
respectively. -/
structure Response where
  id : Nat
  text : String
  embedding : Option (List Int)
  is_outlier : Bool
  similarity : Option Int
  count : Nat
  cluster_id : Option Nat
deriving DecidableEq

/-- The `Cluster` interface of models.ts (result/merger/similarity-pair
back-references kept as ids). -/
structure Cluster where
  id : Nat
  index : Nat
  name : String
  center : List Int
  responses : List Response
  count : Nat
  is_merger_result : Bool
  result_id : Nat
deriving DecidableEq

/-- The `OutlierStatistic` interface of models.ts: one per-response
outlier entry with its similarity to the nearest cluster. -/
structure OutlierStatistic where
  id : Nat
  similarity : Int
  response_id : Nat
  response : Response
deriving DecidableEq

/-- The `OutlierStatistics` interface of models.ts. -/
structure OutlierStatistics where
  id : Nat
  threshold : Int
  outliers : List OutlierStatistic
  clustering_result_id : Nat
deriving DecidableEq

/-- The `SimilarityPair` interface of models.ts (cluster and owner
back-references kept as ids). -/
structure SimilarityPair where
  id : Nat
  similarity : Int
  cluster_1_id : Nat
  cluster_2_id : Nat
deriving DecidableEq

/-- The `Merger` interface of models.ts. -/
structure Merger where
  id : Nat
  name : String
  clusters : List Cluster
  similarity_pairs : List SimilarityPair
  merging_statistics_id : Nat
deriving DecidableEq

/-- The `MergingStatistics` interface of models.ts. -/
structure MergingStatistics where
  id : Nat
  threshold : Int
  mergers : List Merger
  clustering_result_id : Nat
deriving DecidableEq

/-- The `Timesteps` interface of models.ts: per-step completion
timestamps (a total `Record<ClusteringStep, number>`) plus the total
duration. -/
structure Timesteps where
  id : Nat
  total_duration : Nat
  steps : ClusteringStep → Nat

/-- The `ClusteringResult` interface of models.ts (the owning `run`
back-reference kept as `run_id`). -/
structure ClusteringResult where
  id : Nat
  clusters : List Cluster
  outlier_statistics : OutlierStatistics
  merger_statistics : MergingStatistics
  inter_cluster_similarities : List SimilarityPair
  timesteps : Timesteps
  run_id : Nat
  all_responses : List Response

/-- The `_ClusterAssignmentDetail` interface of models.ts: the per-cluster
payload of the cluster-assignments query response. -/
structure ClusterAssignmentDetail where
  id : Nat
  index : Nat
  name : String
  is_merger_result : Bool
  responses : List Response
  count : Nat
deriving DecidableEq

/-- The `_OutlierDetail` interface of models.ts: one entry of the
outliers query response. -/
structure OutlierDetail where
  id : Nat
  response : Response
  similarity : Int
deriving DecidableEq

/-- Modelled from the spec: the broker serves `get_cluster_assignments`
as a pure query against the persisted ClusteringResult, returning for
each cluster its id, index, name, merger flag, member responses and
count; the handler itself is not among the client sources. -/
def getClusterAssignments (res : ClusteringResult) :
    List ClusterAssignmentDetail :=
  res.clusters.map fun c =>
    ⟨c.id, c.index, c.name, c.is_merger_result, c.responses, c.count⟩

/-- Modelled from the spec: the broker serves `get_outliers` as a pure
query returning the per-response outlier entries of the result's
OutlierStatistics; the handler itself is not among the client
sources. -/
def getOutliers (res : ClusteringResult) : List OutlierDetail :=
  res.outlier_statistics.outliers.map fun o =>
    ⟨o.id, o.response, o.similarity⟩

/-- The data-model invariants of a persisted ClusteringResult, as stated
in the spec: member responses of clusters are drawn from the result's
response set and carry the owning cluster's id; a clustered response
belongs to a cluster of the result; `is_outlier` holds exactly when
`cluster_id` is null; the OutlierStatistics entries reference exactly the
responses flagged as outliers. -/
def ResultWF (res : ClusteringResult) : Prop :=
  (∀ r ∈ res.all_responses, r.is_outlier = true ↔ r.cluster_id = none) ∧
  (∀ c ∈ res.clusters, ∀ r ∈ c.responses,
      r ∈ res.all_responses ∧ r.cluster_id = some c.id) ∧
  (∀ r ∈ res.all_responses, ∀ cid, r.cluster_id = some cid →
      ∃ c ∈ res.clusters, c.id = cid ∧ r ∈ c.responses) ∧
  (∀ o ∈ res.outlier_statistics.outliers,
      o.response ∈ res.all_responses ∧ o.response.is_outlier = true) ∧
  (∀ r ∈ res.all_responses, r.is_outlier = true →
      ∃ o ∈ res.outlier_statistics.outliers, o.response = r)

instance (res : ClusteringResult) : Decidable (ResultWF res) := by
  unfold ResultWF
  infer_instance

/-! ### Pipeline progress tracker -/

/-- Modelled from the spec: the Pipeline Progress Tracker's state — a
status per step plus, for each completed step, the timestamp of its
`complete` event (from which the Timesteps record is derived at persist
time). The tracker implementation is not among the client sources. -/
structure TrackerState where
  statuses : ClusteringStep → StepStatus
  completedAt : ClusteringStep → Option Nat

/-- Modelled from the spec: the tracker's initial state — every step
`todo`, no completion timestamps. -/
def initTracker : TrackerState :=
  ⟨fun _ => .todo, fun _ => none⟩

/-- Whether the predecessor of a step (if it has one) has reached
`complete`, i.e. whether the step may legally be entered. -/
def prevDone (st : TrackerState) (s : ClusteringStep) : Prop :=
  ∀ p, prevStep s = some p → st.statuses p = .complete

instance (st : TrackerState) (s : ClusteringStep) :
    Decidable (prevDone st s) := by
  unfold prevDone
  infer_instance

/-- Modelled from the spec: the tracker's transition rule. A `start`
event for a step is accepted only when the step is `todo` and its
predecessor (if any) has reached `complete`; `complete` and `error`
events are accepted only when the step is `start`ed; `todo` is never
emitted. An out-of-order event is a protocol error (`none`). -/
def trackerAccept (st : TrackerState) (e : ClusteringProgressMessage) :
    Option TrackerState :=
  match e.status with
  | .start =>
    if st.statuses e.step = .todo ∧ prevDone st e.step then
      some ⟨fun s => if s = e.step then .start else st.statuses s,
            st.completedAt⟩
    else none
  | .complete =>
    if st.statuses e.step = .start then
      some ⟨fun s => if s = e.step then .complete else st.statuses s,
            fun s => if s = e.step then some e.timestamp
                     else st.completedAt s⟩
    else none
  | .error =>
    if st.statuses e.step = .start then
      some ⟨fun s => if s = e.step then .error else st.statuses s,
            st.completedAt⟩
    else none
  | .todo => none

/-- Run the tracker over a sequence of worker events, failing on the
first protocol error. -/
def runTrackerFrom (st : TrackerState) :
    List ClusteringProgressMessage → Option TrackerState
  | [] => some st
  | e :: rest =>
    match trackerAccept st e with
    | none => none
    | some st2 => runTrackerFrom st2 rest

/-- Run the tracker from its initial state. -/
def runTracker (events : List ClusteringProgressMessage) :
    Option TrackerState :=
  runTrackerFrom initTracker events

/-- Whether every pipeline step has reached `complete` (the successful
terminal state). -/
def AllComplete (st : TrackerState) : Prop :=
  ∀ s, st.statuses s = .complete

instance (st : TrackerState) : Decidable (AllComplete st) := by
  unfold AllComplete
  infer_instance

/-- Whether some step has reached `error` (the failed terminal state). -/
def AnyStepErrored (st : TrackerState) : Prop :=
  ∃ s, st.statuses s = .error

instance (st : TrackerState) : Decidable (AnyStepErrored st) := by
  unfold AnyStepErrored
  infer_instance

/-- Modelled from the spec: at persist time, after a successful run, the
Tracker derives the Timesteps record from the per-step `complete`
timestamps; total_duration is the last timestamp minus the first. -/
def persistTimesteps (st : TrackerState) : Option Timesteps :=
  if AllComplete st then
    some { id := 0
           total_duration :=
             (st.completedAt .save).getD 0 - (st.completedAt .start).getD 0
           steps := fun s => (st.completedAt s).getD 0 }
  else none

/-- The tracker invariant, relative to a bound `b` on all event
timestamps seen so far: completion timestamps never exceed the bound, a
step is `complete` exactly when it has a completion timestamp, a step
that has been entered has every earlier step `complete`, and completion
timestamps are non-decreasing in pipeline step order. -/
def TInv (st : TrackerState) (b : Nat) : Prop :=
  (∀ s t, st.completedAt s = some t → t ≤ b) ∧
  (∀ s, st.statuses s = .complete ↔ (st.completedAt s).isSome = true) ∧
  (∀ s, st.statuses s ≠ .todo →
      ∀ s2, stepIndex s2 < stepIndex s → st.statuses s2 = .complete) ∧
  (∀ s1 s2 t1 t2, stepIndex s1 ≤ stepIndex s2 →
      st.completedAt s1 = some t1 → st.completedAt s2 = some t2 → t1 ≤ t2)

/-! ### Command dispatcher (broker) -/

/-- Modelled from the spec: the broker inputs that matter for the
mutual-exclusion flag — a `run_clustering` command (carrying the id of
the Run it would create) and a progress event from the worker. -/
inductive BrokerInput where
  | runClustering (runId : Nat)
  | workerEvent (e : ClusteringProgressMessage)

/-- Modelled from the spec: the broker's observable reaction to an
input. -/
inductive BrokerOutput where
  | accepted
  | alreadyRunning
  | eventRouted
  | released
  | protocolError
deriving DecidableEq

/-- Modelled from the spec: the broker state — the single-run
mutual-exclusion flag (holding the active run's id while a pipeline is
in flight) and the progress tracker of the active run. The broker
implementation is not among the client sources. -/
structure BrokerState where
  inFlight : Option Nat
  tracker : TrackerState

/-- The broker's initial state: no run in flight. -/
def initBroker : BrokerState :=
  ⟨none, initTracker⟩

/-- The number of runs currently holding the in-flight flag. -/
def holdersCount (st : BrokerState) : Nat :=
  st.inFlight.toList.length

/-- Modelled from the spec: one broker step. `run_clustering` is rejected
with `AlreadyRunning` while the flag is held, otherwise it acquires the
flag and resets the tracker; a worker event advances the tracker, an
out-of-order event is fatal to the current run, and reaching a terminal
state (save complete, or any step errored) releases the flag. -/
def brokerStep (st : BrokerState) : BrokerInput → BrokerState × BrokerOutput
  | .runClustering rid =>
    match st.inFlight with
    | some _ => (st, .alreadyRunning)
    | none => (⟨some rid, initTracker⟩, .accepted)
  | .workerEvent e =>
    match st.inFlight with
    | none => (st, .protocolError)
    | some rid =>
      match trackerAccept st.tracker e with
      | none => (⟨none, st.tracker⟩, .protocolError)
      | some t2 =>
        if AllComplete t2 ∨ AnyStepErrored t2 then
          (⟨none, t2⟩, .released)
        else
          (⟨some rid, t2⟩, .eventRouted)

/-- Run the broker over a sequence of inputs from a given state. -/
def runBrokerFrom (st : BrokerState) : List BrokerInput → BrokerState
  | [] => st
  | i :: rest => runBrokerFrom (brokerStep st i).1 rest

/-- Run the broker over a sequence of inputs from its initial state. -/
def runBroker (inputs : List BrokerInput) : BrokerState :=
  runBrokerFrom initBroker inputs

/-! ### Concrete example data -/

/-- A complete, well-ordered worker event trace: each pipeline step is
started and completed in catalog order, with strictly increasing
timestamps. -/
def demoTrace : List ClusteringProgressMessage :=
  [⟨.start, .start, 0⟩, ⟨.start, .complete, 1⟩,
   ⟨.process_input_file, .start, 2⟩, ⟨.process_input_file, .complete, 3⟩,
   ⟨.load_model, .start, 4⟩, ⟨.load_model, .complete, 5⟩,
   ⟨.embed_responses, .start, 6⟩, ⟨.embed_responses, .complete, 7⟩,
   ⟨.detect_outliers, .start, 8⟩, ⟨.detect_outliers, .complete, 9⟩,
   ⟨.auto_cluster_count, .start, 10⟩, ⟨.auto_cluster_count, .complete, 11⟩,
   ⟨.cluster, .start, 12⟩, ⟨.cluster, .complete, 13⟩,
   ⟨.merge, .start, 14⟩, ⟨.merge, .complete, 15⟩,
   ⟨.save, .start, 16⟩, ⟨.save, .complete, 17⟩]

/-- The tracker state reached by `demoTrace`. -/
def stDemo : TrackerState :=
  (runTracker demoTrace).getD initTracker

/-- The Timesteps record persisted from `stDemo`. -/
def tsDemo : Timesteps :=
  (persistTimesteps stDemo).getD ⟨0, 0, fun _ => 0⟩

/-- A response assigned to the only cluster of `demoResult`. -/
def demoMember : Response :=
  ⟨1, "yes", some [1, 0], false, some 9, 1, some 10⟩

/-- An outlier response of `demoResult`. -/
def demoOutlier : Response :=
  ⟨2, "maybe", some [0, 1], true, some 2, 1, none⟩

/-- The only cluster of `demoResult`. -/
def demoCluster : Cluster :=
  ⟨10, 0, "Cluster 0", [1, 0], [demoMember], 1, false, 100⟩

/-- A small well-formed ClusteringResult: one cluster with one member
response and one outlier response. -/
def demoResult : ClusteringResult :=
  { id := 100
    clusters := [demoCluster]
    outlier_statistics := ⟨20, 5, [⟨21, 2, 2, demoOutlier⟩], 100⟩
    merger_statistics := ⟨30, 8, [], 100⟩
    inter_cluster_similarities := []
    timesteps := ⟨40, 17, fun s => stepIndex s * 2 + 1⟩
    run_id := 7
    all_responses := [demoMember, demoOutlier] }

/-- A 255-character name. -/
def longName255 : String :=
  String.mk (List.replicate 255 'a')

/-- A 256-character name. -/
def longName256 : String :=
  String.mk (List.replicate 256 'a')

/-! ## Theorems -/

/-- Claim C2: the pipeline step catalog consists of exactly nine steps in
the fixed order start, process_input_file, load_model, embed_responses,
detect_outliers, auto_cluster_count, cluster, merge, save; every value of
the client's step type is one of these nine and the per-step message
table has exactly these keys in this order, with no additions or
omissions. -/
theorem clustering_step_catalog_exact :
    clusteringStepOrder =
      [.start, .process_input_file, .load_model, .embed_responses,
       .detect_outliers, .auto_cluster_count, .cluster, .merge, .save] ∧
    clusteringStepOrder.length = 9 ∧
    clusteringStepOrder.Nodup ∧
    (∀ s : ClusteringStep, s ∈ clusteringStepOrder) ∧
    progressionMessagesTable.map Prod.fst = clusteringStepOrder :=
  ⟨rfl, rfl, by decide, by decide, rfl⟩

/-- Claim C7: every payload of the cluster-progress broadcast channel
consists of exactly a pipeline step name, a status drawn from
todo/start/complete/error, and a timestamp: a
`ClusteringProgressMessage` is determined by these three fields, and its
status is always one of the four values. -/
theorem clustering_progress_payload_shape :
    (∀ m : ClusteringProgressMessage,
        m = ⟨m.step, m.status, m.timestamp⟩) ∧
    (∀ m : ClusteringProgressMessage,
        m.status = .todo ∨ m.status = .start ∨ m.status = .complete ∨
          m.status = .error) :=
  ⟨fun _ => rfl, fun m => by cases h : m.status <;> simp⟩

/-- Claim C9: when `has_header` is false the derived header list is
empty, so Toggle-all applied to an empty selected-column set leaves it
empty (it selects the range below `headers.length`, which is zero). -/
theorem toggle_all_empty_without_header :
    ∀ previewData : List (List String),
      headersOf false previewData = [] ∧
      toggleAll (headersOf false previewData) [] = [] :=
  fun _ => ⟨rfl, rfl⟩

/-- Claim C8: whenever the FilePreview Continue action emits file
settings, the emitted delimiter is non-empty: it is "," when the current
delimiter state is null or empty, and the current delimiter state
otherwise. -/
theorem continue_emits_nonempty_delimiter :
    ∀ st : FilePreviewState,
      (continueFileSettings st).delimiter ≠ "" ∧
      ((st.delimiter = none ∨ st.delimiter = some "") →
        (continueFileSettings st).delimiter = ",") ∧
      (∀ s, s ≠ "" → st.delimiter = some s →
        (continueFileSettings st).delimiter = s) := by
  intro st
  refine ⟨?_, ?_, ?_⟩
  · cases h : st.delimiter with
    | none => simp [continueFileSettings, jsStringOr, h]
    | some s =>
      by_cases hs : s = "" <;>
        simp [continueFileSettings, jsStringOr, h, hs]
  · rintro (h | h) <;> simp [continueFileSettings, jsStringOr, h]
  · intro s hs h
    simp [continueFileSettings, jsStringOr, h, hs]

/-- Witness for C8: with a null delimiter state, the Continue action
emits ",". -/
theorem continue_emits_nonempty_delimiter_witness :
    ((⟨none, true, [0]⟩ : FilePreviewState).delimiter = none ∨
      (⟨none, true, [0]⟩ : FilePreviewState).delimiter = some "") ∧
    (continueFileSettings ⟨none, true, [0]⟩).delimiter = "," :=
  ⟨Or.inl rfl,
   (continue_emits_nonempty_delimiter ⟨none, true, [0]⟩).2.1 (Or.inl rfl)⟩

/-- Claim C6: for every channel and listener, the cancellation handle is
idempotent — cancelling twice equals cancelling once — and after
cancellation the listener receives no further deliveries on that
channel. -/
theorem cancel_handle_idempotent :
    ∀ (st : SubscriptionState) (ch : String) (lid : Nat),
      cancelHandle (cancelHandle st ch lid) ch lid =
        cancelHandle st ch lid ∧
      (deliveries (cancelHandle st ch lid) ch).contains lid = false := by
  intro st ch lid
  constructor
  · cases st with
    | mk l =>
      simp only [cancelHandle, List.filter_filter]
      congr 1
      simp
  · simp [deliveries, cancelHandle]

/-- Claim C10: on a duplicate-free selected-column list, toggling a
column twice yields a list with exactly the same members, a single
toggle preserves duplicate-freeness, and a toggle removes the index if
present and appends it once otherwise. -/
theorem toggle_column_involutive_nodup :
    ∀ (s : List Nat) (i : Nat), s.Nodup →
      (toggleColumn s i).Nodup ∧
      (∀ j, j ∈ toggleColumn (toggleColumn s i) i ↔ j ∈ s) ∧
      (i ∈ s → toggleColumn s i = s.filter (fun col => col != i)) ∧
      (i ∉ s → toggleColumn s i = s ++ [i]) := by
  intro s i hnd
  by_cases hi : i ∈ s
  · have h1 : toggleColumn s i = s.filter (fun col => col != i) := by
      simp [toggleColumn, hi]
    have hniA : i ∉ s.filter (fun col => col != i) := by
      simp
    have h2 : toggleColumn (toggleColumn s i) i =
        s.filter (fun col => col != i) ++ [i] := by
      rw [h1]
      simp [toggleColumn, hniA]
    refine ⟨?_, ?_, fun _ => h1, fun hni => absurd hi hni⟩
    · rw [h1]
      exact hnd.filter _
    · intro j
      rw [h2]
      by_cases hj : j = i
      · subst hj
        simp [hi]
      · simp [hj]
  · have h1 : toggleColumn s i = s ++ [i] := by
      simp [toggleColumn, hi]
    have h2 : toggleColumn (toggleColumn s i) i = s := by
      rw [h1]
      have hfil : (s ++ [i]).filter (fun col => col != i) = s := by
        rw [List.filter_append]
        simp only [List.filter_cons, List.filter_nil]
        rw [List.filter_eq_self.mpr]
        · simp
        · intro a ha
          simp
          exact fun h => hi (h ▸ ha)
      simp [toggleColumn, hfil]
    refine ⟨?_, ?_, fun hmem => absurd hmem hi, fun _ => h1⟩
    · rw [h1]
      simp [List.nodup_append, hnd, hi]
    · intro j
      rw [h2]

/-- Witness for C10: toggling column 2 twice on the duplicate-free
selection [0, 2] leaves the membership of 0 unchanged. -/
theorem toggle_column_involutive_nodup_witness :
    ([0, 2] : List Nat).Nodup ∧
    (0 ∈ toggleColumn (toggleColumn [0, 2] 2) 2 ↔ 0 ∈ ([0, 2] : List Nat)) :=
  ⟨by decide, (toggle_column_involutive_nodup [0, 2] 2 (by decide)).2.1 0⟩

/-- Claim C5: a rename through the Results page applies if and only if
the entered name is non-empty and at most 255 characters; a rejected
rename leaves the stored name unchanged, and an applied rename stores
the entered name. -/
theorem update_run_name_validation :
    ∀ (st : ResultsNameState) (s : String),
      ((applyRenameFlow st s).2 = true ↔ s ≠ "" ∧ s.length ≤ 255) ∧
      ((applyRenameFlow st s).2 = false →
        (applyRenameFlow st s).1.runName = st.runName) ∧
      ((applyRenameFlow st s).2 = true →
        (applyRenameFlow st s).1.runName = s) := by
  intro st s
  by_cases h0 : s = ""
  · subst h0
    simp [applyRenameFlow, updateRunName, onNameInputChange, validateRunName]
  · by_cases h1 : s.length > 255
    · have hv : validateRunName s = false := by
        simp [validateRunName, h0, h1]
      simp [applyRenameFlow, updateRunName, onNameInputChange, hv, h0]
      omega
    · have hv : validateRunName s = true := by
        simp [validateRunName, h0, h1]
      simp [applyRenameFlow, updateRunName, onNameInputChange, hv, h0]
      omega

/-- Witness for C5: a 255-character name is accepted and stored. -/
theorem update_run_name_validation_witness :
    (longName255 ≠ "" ∧ longName255.length ≤ 255) ∧
    (applyRenameFlow ⟨"old", "old", false⟩ longName255).2 = true ∧
    (applyRenameFlow ⟨"old", "old", false⟩ longName255).1.runName =
      longName255 := by
  have hlen : longName255.length = 255 := rfl
  have hne : longName255 ≠ "" := by decide
  have hcond : longName255 ≠ "" ∧ longName255.length ≤ 255 :=
    ⟨hne, by rw [hlen]⟩
  have happ :=
    (update_run_name_validation ⟨"old", "old", false⟩ longName255).1.mpr hcond
  exact ⟨hcond, happ,
    (update_run_name_validation ⟨"old", "old", false⟩ longName255).2.2 happ⟩

/-- Claim C1: after any sequence of inputs at most one run holds the
in-flight flag, and a `run_clustering` issued while a run is active is
rejected with AlreadyRunning, leaving the broker state — including the
active run's progress tracker — unchanged. -/
theorem run_clustering_mutual_exclusion :
    (∀ inputs : List BrokerInput, holdersCount (runBroker inputs) ≤ 1) ∧
    (∀ (st : BrokerState) (rid : Nat), st.inFlight ≠ none →
      brokerStep st (.runClustering rid) = (st, .alreadyRunning)) := by
  constructor
  · intro inputs
    cases h : (runBroker inputs).inFlight <;>
      simp [holdersCount, h]
  · intro st rid h
    cases hin : st.inFlight with
    | none => exact absurd hin h
    | some v => simp [brokerStep, hin]

/-- Witness for C1: with run 3 in flight, a second `run_clustering` is
rejected and changes nothing. -/
theorem run_clustering_mutual_exclusion_witness :
    ((⟨some 3, initTracker⟩ : BrokerState).inFlight ≠ none) ∧
    brokerStep ⟨some 3, initTracker⟩ (.runClustering 5) =
      (⟨some 3, initTracker⟩, .alreadyRunning) :=
  ⟨by simp,
   run_clustering_mutual_exclusion.2 ⟨some 3, initTracker⟩ 5 (by simp)⟩

/-- Claim C3: in a well-formed ClusteringResult a response is an outlier
exactly when its cluster_id is null, so the combined member sets of
get-cluster-assignments are exactly the non-outlier responses and
get-outliers returns exactly the complement. -/
theorem result_partition_roundtrip :
    ∀ res : ClusteringResult, ResultWF res →
      ∀ r : Response,
        ((∃ d ∈ getClusterAssignments res, r ∈ d.responses) ↔
          r ∈ res.all_responses ∧ r.is_outlier = false) ∧
        ((∃ o ∈ getOutliers res, o.response = r) ↔
          r ∈ res.all_responses ∧ r.is_outlier = true) := by
  rintro res ⟨h1, h2, h3, h4, h5⟩ r
  constructor
  · constructor
    · rintro ⟨d, hd, hrd⟩
      simp only [getClusterAssignments, List.mem_map] at hd
      obtain ⟨c, hc, rfl⟩ := hd
      obtain ⟨hall, hcid⟩ := h2 c hc r hrd
      refine ⟨hall, ?_⟩
      cases hb : r.is_outlier with
      | false => rfl
      | true =>
        have hnone := (h1 r hall).mp hb
        rw [hnone] at hcid
        exact absurd hcid (by simp)
    · rintro ⟨hall, hof⟩
      cases hcid : r.cluster_id with
      | none =>
        have hout := (h1 r hall).mpr hcid
        rw [hout] at hof
        exact absurd hof (by simp)
      | some cid =>
        obtain ⟨c, hc, _, hrc⟩ := h3 r hall cid hcid
        refine ⟨⟨c.id, c.index, c.name, c.is_merger_result,
          c.responses, c.count⟩, ?_, hrc⟩
        simp only [getClusterAssignments, List.mem_map]
        exact ⟨c, hc, rfl⟩
  · constructor
    · rintro ⟨o, ho, rfl⟩
      simp only [getOutliers, List.mem_map] at ho
      obtain ⟨o0, ho0, rfl⟩ := ho
      exact h4 o0 ho0
    · rintro ⟨hall, hot⟩
      obtain ⟨o0, ho0, heq⟩ := h5 r hall hot
      refine ⟨⟨o0.id, o0.response, o0.similarity⟩, ?_, heq⟩
      simp only [getOutliers, List.mem_map]
      exact ⟨o0, ho0, rfl⟩

/-- Witness for C3: the demo result is well formed and its member
response is reported by get-cluster-assignments exactly as a
non-outlier. -/
theorem result_partition_roundtrip_witness :
    ResultWF demoResult ∧
    ((∃ d ∈ getClusterAssignments demoResult, demoMember ∈ d.responses) ↔
      demoMember ∈ demoResult.all_responses ∧
        demoMember.is_outlier = false) :=
  ⟨by decide,
   (result_partition_roundtrip demoResult (by decide) demoMember).1⟩

/-- The step-order index is injective. -/
theorem stepIndex_inj :
    ∀ s t : ClusteringStep, stepIndex s = stepIndex t → s = t := by decide

/-- A step strictly before `s` is either the direct predecessor of `s` or
strictly before it. -/
theorem stepIndex_lt_cases :
    ∀ s s2 p : ClusteringStep, prevStep s = some p →
      stepIndex s2 < stepIndex s → s2 = p ∨ stepIndex s2 < stepIndex p := by
  decide

/-- No step lies strictly before a step with no predecessor. -/
theorem prevStep_none_bot :
    ∀ s s2 : ClusteringStep, prevStep s = none →
      ¬ stepIndex s2 < stepIndex s := by decide

/-- The tracker invariant holds initially. -/
theorem tinv_init : TInv initTracker 0 :=
  ⟨fun s t h => by simp [initTracker] at h,
   fun s => by simp [initTracker],
   fun s hs => by simp [initTracker] at hs,
   fun s1 s2 t1 t2 _ h1 => by simp [initTracker] at h1⟩

/-- One accepted event, with a timestamp at or above the bound,
preserves the tracker invariant with the event timestamp as the new
bound. -/
theorem trackerAccept_inv (st st2 : TrackerState)
    (e : ClusteringProgressMessage) (b : Nat)
    (hinv : TInv st b) (hb : b ≤ e.timestamp)
    (hacc : trackerAccept st e = some st2) : TInv st2 e.timestamp := by
  obtain ⟨i1, i2, i3, i4⟩ := hinv
  cases he : e.status with
  | todo => simp [trackerAccept, he] at hacc
  | start =>
    simp only [trackerAccept, he] at hacc
    by_cases hc : st.statuses e.step = .todo ∧ prevDone st e.step
    · rw [if_pos hc] at hacc
      obtain ⟨hc1, hc2⟩ := hc
      injection hacc with hacc
      subst hacc
      refine ⟨fun s t h => le_trans (i1 s t h) hb, ?_, ?_,
        fun s1 s2 t1 t2 hle h1 h2 => i4 s1 s2 t1 t2 hle h1 h2⟩
      · intro s
        dsimp only
        by_cases hs : s = e.step
        · subst hs
          rw [if_pos rfl]
          have hnone : st.completedAt e.step = none := by
            cases hopt : st.completedAt e.step with
            | none => rfl
            | some t =>
              have hcomp := (i2 e.step).mpr (by rw [hopt]; rfl)
              rw [hc1] at hcomp
              exact absurd hcomp (by simp)
          simp [hnone]
        · rw [if_neg hs]
          exact i2 s
      · intro s hs s2 hlt
        dsimp only at hs ⊢
        by_cases hseq : s = e.step
        · subst hseq
          have hs2ne : s2 ≠ e.step := fun h => by
            subst h
            exact absurd hlt (lt_irrefl _)
          rw [if_neg hs2ne]
          cases hp : prevStep e.step with
          | none => exact absurd hlt (prevStep_none_bot _ _ hp)
          | some p =>
            have hpc : st.statuses p = .complete := hc2 p hp
            rcases stepIndex_lt_cases _ _ _ hp hlt with rfl | hlt2
            · exact hpc
            · exact i3 p (by rw [hpc]; simp) s2 hlt2
        · rw [if_neg hseq] at hs
          have h3 := i3 s hs s2 hlt
          by_cases hs2 : s2 = e.step
          · subst hs2
            rw [hc1] at h3
            exact absurd h3 (by simp)
          · rw [if_neg hs2]
            exact h3
    · rw [if_neg hc] at hacc
      cases hacc
  | complete =>
    simp only [trackerAccept, he] at hacc
    by_cases hc : st.statuses e.step = .start
    · rw [if_pos hc] at hacc
      injection hacc with hacc
      subst hacc
      refine ⟨?_, ?_, ?_, ?_⟩
      · intro s t h
        dsimp only at h
        by_cases hs : s = e.step
        · rw [if_pos hs] at h
          injection h with h
          omega
        · rw [if_neg hs] at h
          exact le_trans (i1 s t h) hb
      · intro s
        dsimp only
        by_cases hs : s = e.step
        · rw [if_pos hs, if_pos hs]
          simp
        · rw [if_neg hs, if_neg hs]
          exact i2 s
      · intro s hs s2 hlt
        dsimp only at hs ⊢
        by_cases hseq : s = e.step
        · subst hseq
          have hs2ne : s2 ≠ e.step := fun h => by
            subst h
            exact absurd hlt (lt_irrefl _)
          rw [if_neg hs2ne]
          exact i3 e.step (by rw [hc]; simp) s2 hlt
        · rw [if_neg hseq] at hs
          have h3 := i3 s hs s2 hlt
          by_cases hs2 : s2 = e.step
          · rw [if_pos hs2]
          · rw [if_neg hs2]
            exact h3
      · intro s1 s2 t1 t2 hle h1 h2
        dsimp only at h1 h2
        by_cases hs2 : s2 = e.step
        · subst hs2
          rw [if_pos rfl] at h2
          injection h2 with h2
          subst h2
          by_cases hs1 : s1 = e.step
          · rw [if_pos hs1] at h1
            injection h1 with h1
            omega
          · rw [if_neg hs1] at h1
            exact le_trans (i1 s1 t1 h1) hb
        · rw [if_neg hs2] at h2
          by_cases hs1 : s1 = e.step
          · subst hs1
            rw [if_pos rfl] at h1
            injection h1 with h1
            have hs2c : st.statuses s2 = .complete :=
              (i2 s2).mpr (by rw [h2]; rfl)
            have hlt2 : stepIndex e.step < stepIndex s2 :=
              lt_of_le_of_ne hle
                (fun hEq => hs2 (stepIndex_inj _ _ hEq).symm)
            have hcomp := i3 s2 (by rw [hs2c]; simp) e.step hlt2
            rw [hc] at hcomp
            exact absurd hcomp (by simp)
          · rw [if_neg hs1] at h1
            exact i4 s1 s2 t1 t2 hle h1 h2
    · rw [if_neg hc] at hacc
      cases hacc
  | error =>
    simp only [trackerAccept, he] at hacc
    by_cases hc : st.statuses e.step = .start
    · rw [if_pos hc] at hacc
      injection hacc with hacc
      subst hacc
      refine ⟨fun s t h => le_trans (i1 s t h) hb, ?_, ?_,
        fun s1 s2 t1 t2 hle h1 h2 => i4 s1 s2 t1 t2 hle h1 h2⟩
      · intro s
        dsimp only
        by_cases hs : s = e.step
        · subst hs
          rw [if_pos rfl]
          have hnone : st.completedAt e.step = none := by
            cases hopt : st.completedAt e.step with
            | none => rfl
            | some t =>
              have hcomp := (i2 e.step).mpr (by rw [hopt]; rfl)
              rw [hc] at hcomp
              exact absurd hcomp (by simp)
          simp [hnone]
        · rw [if_neg hs]
          exact i2 s
      · intro s hs s2 hlt
        dsimp only at hs ⊢
        by_cases hseq : s = e.step
        · subst hseq
          have hs2ne : s2 ≠ e.step := fun h => by
            subst h
            exact absurd hlt (lt_irrefl _)
          rw [if_neg hs2ne]
          exact i3 e.step (by rw [hc]; simp) s2 hlt
        · rw [if_neg hseq] at hs
          have h3 := i3 s hs s2 hlt
          by_cases hs2 : s2 = e.step
          · subst hs2
            rw [hc] at h3
            exact absurd h3 (by simp)
          · rw [if_neg hs2]
            exact h3
    · rw [if_neg hc] at hacc
      cases hacc

/-- Processing a whole event trace whose timestamps start at or above the
bound and are non-decreasing preserves the tracker invariant. -/
theorem runTrackerFrom_inv :
    ∀ (trace : List ClusteringProgressMessage) (st0 : TrackerState)
      (b : Nat) (st2 : TrackerState), TInv st0 b →
      List.Chain (· ≤ ·) b (trace.map (fun e => e.timestamp)) →
      runTrackerFrom st0 trace = some st2 → ∃ b2, TInv st2 b2 := by
  intro trace
  induction trace with
  | nil =>
    intro st0 b st2 hinv _ hrun
    simp only [runTrackerFrom] at hrun
    injection hrun with h
    subst h
    exact ⟨b, hinv⟩
  | cons e rest ih =>
    intro st0 b st2 hinv hchain hrun
    rw [List.map_cons] at hchain
    cases hchain with
    | cons hb htail =>
      simp only [runTrackerFrom] at hrun
      cases hacc : trackerAccept st0 e with
      | none =>
        rw [hacc] at hrun
        cases hrun
      | some st1 =>
        rw [hacc] at hrun
        exact ih st1 e.timestamp st2
          (trackerAccept_inv st0 st1 e b hinv hb hacc) htail hrun

/-- Claim C4: for a Timesteps record persisted from a successful tracker
run over an event trace with non-decreasing timestamps, the per-step
completion timestamps are non-decreasing in pipeline step order and
total_duration equals the last timestamp minus the first. -/
theorem timesteps_monotone_total_duration :
    ∀ (trace : List ClusteringProgressMessage) (st : TrackerState)
      (ts : Timesteps),
      (trace.map (fun e => e.timestamp)).Chain' (· ≤ ·) →
      runTracker trace = some st →
      persistTimesteps st = some ts →
      (∀ s1 s2, stepIndex s1 ≤ stepIndex s2 → ts.steps s1 ≤ ts.steps s2) ∧
      ts.total_duration = ts.steps .save - ts.steps .start := by
  intro trace st ts hchain hrun hps
  have hchain0 :
      List.Chain (· ≤ ·) 0 (trace.map (fun e => e.timestamp)) := by
    cases h : trace.map (fun e => e.timestamp) with
    | nil => exact List.Chain.nil
    | cons a l =>
      rw [h] at hchain
      exact List.Chain.cons (Nat.zero_le a) hchain
  obtain ⟨b, i1, i2, i3, i4⟩ :=
    runTrackerFrom_inv trace initTracker 0 st tinv_init hchain0 hrun
  unfold persistTimesteps at hps
  by_cases hac : AllComplete st
  · rw [if_pos hac] at hps
    injection hps with hts
    subst hts
    constructor
    · intro s1 s2 hle
      have hs1 : (st.completedAt s1).isSome = true := (i2 s1).mp (hac s1)
      have hs2 : (st.completedAt s2).isSome = true := (i2 s2).mp (hac s2)
      obtain ⟨t1, h1⟩ := Option.isSome_iff_exists.mp hs1
      obtain ⟨t2, h2⟩ := Option.isSome_iff_exists.mp hs2
      dsimp only
      rw [h1, h2]
      simpa using i4 s1 s2 t1 t2 hle h1 h2
    · rfl
  · rw [if_neg hac] at hps
    cases hps

/-- Witness for C4: the complete demo trace satisfies the hypotheses and
its persisted Timesteps record satisfies the invariant. -/
theorem timesteps_monotone_total_duration_witness :
    (demoTrace.map (fun e => e.timestamp)).Chain' (· ≤ ·) ∧
    runTracker demoTrace = some stDemo ∧
    persistTimesteps stDemo = some tsDemo ∧
    tsDemo.steps .start ≤ tsDemo.steps .save ∧
    tsDemo.total_duration = tsDemo.steps .save - tsDemo.steps .start := by
  have hchain : (demoTrace.map (fun e => e.timestamp)).Chain' (· ≤ ·) := by
    simp [demoTrace, List.chain'_cons]
  have hrun : runTracker demoTrace = some stDemo := rfl
  have hps : persistTimesteps stDemo = some tsDemo := rfl
  have hmain :=
    timesteps_monotone_total_duration demoTrace stDemo tsDemo hchain hrun hps
  exact ⟨hchain, hrun, hps, hmain.1 .start .save (by decide), hmain.2⟩

end Psycluster
